import Mathlib

set_option autoImplicit false

namespace SAC

/-!
Shallow embedding of the shopify-auto-categorizer repository.

JavaScript strings are modelled as Lean `String`; the handful of string
operations the source uses (`trim`, `toLowerCase`, `split`, `slice`,
`length`) are defined below over the underlying character list.  ASCII
lower-casing suffices for the comparisons the code performs.
-/

/-- Whitespace characters recognised by JavaScript `trim` and the regex
class `\s` (the subset that can actually occur in the modelled data). -/
def isWsChar (c : Char) : Bool :=
  c == ' ' || c == '\t' || c == '\n' || c == '\r' || c == '\x0b' || c == '\x0c'

/-- ASCII lower-casing of one character, modelling `toLowerCase`. -/
def lowerChar (c : Char) : Char :=
  if 65 ≤ c.toNat ∧ c.toNat ≤ 90 then Char.ofNat (c.toNat + 32) else c

/-- JavaScript `String.prototype.toLowerCase` (ASCII fragment). -/
def jsToLower (s : String) : String :=
  ⟨s.data.map lowerChar⟩

/-- JavaScript `String.prototype.trim`: strip leading and trailing whitespace. -/
def jsTrim (s : String) : String :=
  ⟨((s.data.dropWhile isWsChar).reverse.dropWhile isWsChar).reverse⟩

/-- JavaScript `s.slice(0, n)`: the first `n` characters of `s`. -/
def jsSlice (s : String) (n : Nat) : String :=
  ⟨s.data.take n⟩

/-- Character-list worker for `jsSplit`. -/
def jsSplitAux (sep : Char) : List Char → List Char → List String
  | [], acc => [⟨acc.reverse⟩]
  | c :: rest, acc =>
    if c = sep then ⟨acc.reverse⟩ :: jsSplitAux sep rest []
    else jsSplitAux sep rest (c :: acc)

/-- JavaScript `s.split(sep)` for a one-character separator: `"".split(',')`
is `[""]` and separators at the ends produce empty fragments, as in JS. -/
def jsSplit (s : String) (sep : Char) : List String :=
  jsSplitAux sep s.data []

/-- JavaScript `(s || '').split(',').map(t => t.trim()).filter(Boolean)`,
the tag-string parsing idiom used throughout the repository. -/
def splitTags (s : String) : List String :=
  ((jsSplit s ',').map jsTrim).filter (fun t => t ≠ "")

/-!
Tag merging, from `createProductProcessor` (src/unnamed/part_005):

```js
function mergeTags(existing, generated, replace = false) {
  const normalized = new Set();
  const tags = [];
  const pool = replace ? generated : [...existing, ...generated];
  for (const tag of pool) {
    const value = (tag || '').toString().trim();
    if (!value) continue;
    const key = value.toLowerCase();
    if (normalized.has(key)) continue;
    normalized.add(key);
    tags.push(value);
  }
  return tags.slice(0, 25);
}
```

The `Set` is modelled as the list of keys seen so far; the imperative loop
becomes a tail-recursive worker carrying the seen keys and the output
accumulator.
-/

/-- Loop body of `mergeTags`: `seen` is the set of lower-cased keys already
kept, `acc` the kept tags in reverse order. -/
def mergeTagsLoop : List String → List String → List String → List String
  | [], _, acc => acc.reverse
  | t :: rest, seen, acc =>
    let value := jsTrim t
    if value = "" then mergeTagsLoop rest seen acc
    else
      let key := jsToLower value
      if seen.contains key then mergeTagsLoop rest seen acc
      else mergeTagsLoop rest (key :: seen) (value :: acc)

/-- The processor's `mergeTags(existing, generated, replace)`. -/
def mergeTags (existing generated : List String) (replace : Bool) : List String :=
  let pool := if replace then generated else existing ++ generated
  (mergeTagsLoop pool [] []).take 25

/-- Claim C2's merge, written from the claim's words: duplicates removed
case-insensitively keeping the first-seen casing and first-occurrence order
(no trimming, no dropping of empty entries), then capped at 25. -/
def claimDedupCI : List String → List String → List String
  | [], _ => []
  | t :: rest, seen =>
    if seen.contains (jsToLower t) then claimDedupCI rest seen
    else t :: claimDedupCI rest (jsToLower t :: seen)

/-- Claim C2's merge of the two lists as the claim states it. -/
def claimMerge (existing generated : List String) : List String :=
  (claimDedupCI (existing ++ generated) []).take 25

/-- Amended description of the merge: each entry is first trimmed, empty
entries are dropped, and de-duplication is keyed on the lower-cased trimmed
text, keeping the first-seen trimmed casing in first-occurrence order. -/
def dedupTrimCI : List String → List String → List String
  | [], _ => []
  | t :: rest, seen =>
    let v := jsTrim t
    if v = "" then dedupTrimCI rest seen
    else if seen.contains (jsToLower v) then dedupTrimCI rest seen
    else v :: dedupTrimCI rest (jsToLower v :: seen)

theorem mergeTagsLoop_eq (l : List String) :
    ∀ seen acc, mergeTagsLoop l seen acc = acc.reverse ++ dedupTrimCI l seen := by
  induction l with
  | nil =>
    intro seen acc
    simp [mergeTagsLoop, dedupTrimCI]
  | cons t rest ih =>
    intro seen acc
    simp only [mergeTagsLoop, dedupTrimCI]
    split
    · exact ih seen acc
    · split
      · exact ih seen acc
      · rw [ih]
        simp

/-- C2 (counterexample): the claim describes the merge as removing
case-insensitive duplicates from the concatenation while otherwise keeping
the entries as given; on the input `[" Gift"]` (one tag with a leading
space) the code trims the entry, so the claimed output `[" Gift"]` differs
from the actual output `["Gift"]`. -/
theorem C2_counterexample :
    mergeTags [" Gift"] [] false = ["Gift"] ∧
    claimMerge [" Gift"] [] = [" Gift"] ∧
    mergeTags [" Gift"] [] false ≠ claimMerge [" Gift"] [] := by
  decide

/-- C2 (amended): for every existing tag list and every classification tag
list, `mergeTags` without `replace` returns the concatenation
existing-then-new with each entry trimmed, empty entries dropped, and
duplicates removed case-insensitively on the trimmed text keeping the
first-seen (trimmed) casing and first-occurrence order, capped at 25
entries; in particular merging existing `["Gift","gift","Serum"]` with new
`["serum","Brightening"]` yields `["Gift","Serum","Brightening"]`. -/
theorem C2_tag_merge (existing generated : List String) :
    mergeTags existing generated false =
      (dedupTrimCI (existing ++ generated) []).take 25 ∧
    mergeTags ["Gift", "gift", "Serum"] ["serum", "Brightening"] false =
      ["Gift", "Serum", "Brightening"] := by
  constructor
  · simp [mergeTags, mergeTagsLoop_eq]
  · decide

/-!
The Shopify service layer (src/lib/mapping.js `createShopifyService`,
src/src/shopify.js): metafield storage on the remote shop is modelled as an
association list keyed by owner product id and metafield key (the
`auto_ai` namespace is the only one used, so it is left implicit).  A read
oracle `readFails` models a transport failure of a metafield GET — the
source wraps that call in `.catch(() => null)` — and a write oracle
`writeFails` models a (post-retry) failure of a mutating call, which the
source lets propagate.  Every remote mutation is recorded in a trace of
`RemoteWrite` events.
-/

/-- Value carried by a metafield: the source stores strings, and
`String(classification.confidence ?? '')` stores a rendered number, kept
here as a number. -/
inductive MfVal where
  | str (v : String)
  | num (v : ℚ)
  deriving DecidableEq, BEq, Repr

/-- Body of the product update PUT issued by `processProduct`. -/
structure Payload where
  product_type : String
  standard_product_type : String
  tags : String
  metafields_global_title_tag : String
  metafields_global_description_tag : String
  body_html : Option String
  deriving DecidableEq, Repr

/-- One remote mutating call, as issued through the throttled client. -/
inductive RemoteWrite where
  | updateProduct (pid : Nat) (payload : Payload)
  | putMetafield (mfId : Nat) (value : MfVal)
  | postMetafield (pid : Nat) (key : String) (value : MfVal)
  deriving DecidableEq, Repr

/-- A stored metafield: its Shopify id and its value. -/
structure Metafield where
  mfId : Nat
  value : MfVal
  deriving DecidableEq, BEq, Repr

/-- The remote shop as the processor sees it: stored metafields (owner
product id, key, metafield), the transport-failure oracles, and the next
fresh metafield id the shop will assign on a POST. -/
structure SWorld where
  metafields : List (Nat × String × Metafield)
  readFails : Nat → String → Bool
  writeFails : RemoteWrite → Bool
  nextMfId : Nat

/-- `getMetafield(productId, key)`: a GET wrapped in `.catch(() => null)`,
returning the first matching metafield or `null` on a transport failure. -/
def getMetafield (w : SWorld) (pid : Nat) (key : String) : Option Metafield :=
  if w.readFails pid key then none
  else (w.metafields.find? (fun e => e.1 == pid && e.2.1 == key)).map (fun e => e.2.2)

/-- `setMetafield(productId, key, value)`: upsert — read the existing
metafield, then PUT to it by metafield id, or POST a new one.  A failing
PUT/POST propagates as an error. -/
def setMetafieldE (w : SWorld) (pid : Nat) (key : String) (value : MfVal) :
    Except Unit (SWorld × List RemoteWrite) :=
  match getMetafield w pid key with
  | some existing =>
    let op := RemoteWrite.putMetafield existing.mfId value
    if w.writeFails op then .error ()
    else .ok ({ w with metafields := w.metafields.map (fun e =>
      if e.2.2.mfId = existing.mfId then (e.1, e.2.1, ⟨e.2.2.mfId, value⟩) else e) }, [op])
  | none =>
    let op := RemoteWrite.postMetafield pid key value
    if w.writeFails op then .error ()
    else .ok ({ w with
      metafields := w.metafields ++ [(pid, key, ⟨w.nextMfId, value⟩)],
      nextMfId := w.nextMfId + 1 }, [op])

/-- `updateProduct(id, payload)`: the single product PUT.  It mutates the
remote product, which the processor never reads back, so only the trace
records it. -/
def updateProductE (w : SWorld) (pid : Nat) (payload : Payload) :
    Except Unit (SWorld × List RemoteWrite) :=
  let op := RemoteWrite.updateProduct pid payload
  if w.writeFails op then .error () else .ok (w, [op])

/-- A consecutive run of `await setMetafield(...)` calls, in source order. -/
def writeMetafields (pid : Nat) :
    SWorld → List (String × MfVal) → Except Unit (SWorld × List RemoteWrite)
  | w, [] => .ok (w, [])
  | w, (key, value) :: rest => do
    let (w1, t1) ← setMetafieldE w pid key value
    let (w2, t2) ← writeMetafields pid w1 rest
    .ok (w2, t1 ++ t2)

/-- A product option (name plus values), used only to build the model prompt. -/
structure ProductOption where
  name : String
  values : List String
  deriving DecidableEq, Repr

/-- A product variant (title only), used only to build the model prompt. -/
structure Variant where
  title : String
  deriving DecidableEq, Repr

/-- A Shopify product as the webhook/backfill payload delivers it.  Absent
string fields are modelled by `""` (JavaScript `|| ''` treats both alike);
the id is `Option Nat` with `none` for an absent id. -/
structure Product where
  id : Option Nat
  title : String
  vendor : String
  body_html : String
  tags : String
  product_type : String
  updated_at : String
  metafields_global_title_tag : String
  metafields_global_description_tag : String
  options : List ProductOption
  variants : List Variant
  deriving DecidableEq, Repr

/-- A classification result.  `confidence` is `Option` because JavaScript
`??` distinguishes an absent confidence from `0`; an absent `method` or SEO
field is `""` (falsy either way). -/
structure Classification where
  category_path : String
  tags : List String
  seo_title : String
  seo_description : String
  confidence : Option ℚ
  method : String
  deriving DecidableEq, Repr

/-- Options of `processProduct`. -/
structure POptions where
  dryRun : Bool
  classification : Option Classification
  replaceTags : Bool
  replaceSeo : Bool
  force : Bool
  body_html : Option String
  deriving DecidableEq, Repr

/-- Return value of `processProduct` (when it does not throw): `none` for
the bare `return` on a missing id, otherwise the skipped, dry-run or
processed result object. -/
inductive ProcResult where
  | skipped (reason : String)
  | dryRunOut (classification : Classification) (payload : Payload) (tags : List String)
  | processed (classification : Classification) (payload : Payload) (tags : List String)
  deriving DecidableEq, Repr

/-- Key of the completion stamp metafield. -/
def stampKey : String := "last_processed_updated_at"

/-- JavaScript `!product?.id` is true for an absent id and for the falsy id
`0`; `idOf?` returns the id exactly when that guard passes. -/
def idOf? (p : Product) : Option Nat :=
  match p.id with
  | some pid => if pid = 0 then none else some pid
  | none => none

/-- `alreadyProcessed(product)`: the stored stamp exists and equals the
product's current `updated_at`. -/
def alreadyProcessed (w : SWorld) (p : Product) : Bool :=
  match getMetafield w (p.id.getD 0) stampKey with
  | some mf => decide (mf.value = MfVal.str p.updated_at)
  | none => false

/-- `processProduct(product, source, options)` from `createProductProcessor`
(src/unnamed/part_005).  `cat` is the injected categorizer's `categorize`,
`lang` the processor's language setting.  The result triple is the final
world, the trace of remote mutating calls, and the returned value. -/
def processProduct (lang : String) (cat : Product → Classification) (w : SWorld)
    (p : Product) (source : String) (opts : POptions) :
    Except Unit (SWorld × List RemoteWrite × Option ProcResult) :=
  match idOf? p with
  | none => .ok (w, [], none)
  | some pid =>
    if !opts.force && alreadyProcessed w p then
      .ok (w, [], some (.skipped "already_processed"))
    else
      let classification := match opts.classification with
        | some c => c
        | none => cat p
      let existingTags := splitTags p.tags
      let mergedTags := mergeTags existingTags classification.tags opts.replaceTags
      let currentSeoTitle := p.metafields_global_title_tag
      let currentSeoDescription := p.metafields_global_description_tag
      let nextSeoTitle := jsSlice classification.seo_title 70
      let nextSeoDescription := jsSlice classification.seo_description 320
      let wantsSeoTitle := opts.replaceSeo && (classification.seo_title != "")
      let wantsSeoDescription := opts.replaceSeo && (classification.seo_description != "")
      let needsSeoTitle := wantsSeoTitle || (currentSeoTitle == "")
        || decide (currentSeoTitle.length < 40)
      let needsSeoDescription := wantsSeoDescription || (currentSeoDescription == "")
        || decide (currentSeoDescription.length < 80)
      let payload : Payload := {
        product_type := classification.category_path
        standard_product_type := classification.category_path
        tags := String.intercalate ", " mergedTags
        metafields_global_title_tag :=
          if needsSeoTitle then nextSeoTitle else currentSeoTitle
        metafields_global_description_tag :=
          if needsSeoDescription then nextSeoDescription else currentSeoDescription
        body_html := match opts.body_html with
          | some b => if b = "" then none else some b
          | none => none }
      if opts.dryRun then
        .ok (w, [], some (.dryRunOut classification payload mergedTags))
      else do
        let (w1, t1) ← updateProductE w pid payload
        let kvs :=
          [("category_path", MfVal.str classification.category_path),
           ("ai_tags", MfVal.str (String.intercalate ", " mergedTags)),
           ("lang", MfVal.str lang),
           ("source", MfVal.str source),
           ("method", MfVal.str (if classification.method = "" then "rules"
             else classification.method)),
           ("confidence", match classification.confidence with
             | some c => MfVal.num c
             | none => MfVal.str "")]
          ++ (if needsSeoTitle then [("seo_title", MfVal.str nextSeoTitle)] else [])
          ++ (if needsSeoDescription
              then [("seo_description", MfVal.str nextSeoDescription)] else [])
          ++ [(stampKey, MfVal.str p.updated_at)]
        let (w2, t2) ← writeMetafields pid w1 kvs
        .ok (w2, t1 ++ t2, some (.processed classification payload mergedTags))

theorem find?_map_of_pred_eq {α : Type} (p : α → Bool) (f : α → α)
    (hf : ∀ a, p (f a) = p a) :
    ∀ l : List α, (l.map f).find? p = (l.find? p).map f := by
  intro l
  induction l with
  | nil => simp
  | cons a t ih =>
    simp only [List.map, List.find?, hf]
    cases hp : p a <;> simp [hp, ih]

theorem find?_append_of_none {α : Type} (p : α → Bool) {l1 : List α}
    (h : l1.find? p = none) (l2 : List α) :
    (l1 ++ l2).find? p = l2.find? p := by
  induction l1 with
  | nil => rfl
  | cons a t ih =>
    simp only [List.find?] at h ⊢
    cases hp : p a
    · rw [hp] at h
      simp only [List.cons_append, List.find?, hp]
      exact ih h
    · rw [hp] at h
      cases h

theorem setMetafieldE_oracles {w : SWorld} {pid : Nat} {key : String} {value : MfVal}
    {w' : SWorld} {tr : List RemoteWrite}
    (h : setMetafieldE w pid key value = .ok (w', tr)) :
    w'.readFails = w.readFails ∧ w'.writeFails = w.writeFails := by
  unfold setMetafieldE at h
  split at h <;> dsimp only at h <;> split at h <;> (try cases h) <;> exact ⟨rfl, rfl⟩

theorem setMetafieldE_get_same {w : SWorld} {pid : Nat} {key : String} {value : MfVal}
    {w' : SWorld} {tr : List RemoteWrite}
    (hr : w.readFails pid key = false)
    (h : setMetafieldE w pid key value = .ok (w', tr)) :
    ∃ mid, getMetafield w' pid key = some ⟨mid, value⟩ := by
  unfold setMetafieldE at h
  split at h
  case h_1 =>
    rename_i x existing hg
    dsimp only at h
    split at h
    · cases h
    · cases h
      refine ⟨existing.mfId, ?_⟩
      unfold getMetafield at hg ⊢
      rw [hr] at hg
      try dsimp only
      rw [hr]
      simp only [Bool.false_eq_true, if_false] at hg ⊢
      rw [find?_map_of_pred_eq _ _ (fun a => by try dsimp only
                                                split <;> rfl)]
      obtain ⟨e0, he0, he0v⟩ := Option.map_eq_some'.mp hg
      rw [he0]
      simp [he0v]
  case h_2 =>
    rename_i x hg
    dsimp only at h
    split at h
    · cases h
    · cases h
      refine ⟨w.nextMfId, ?_⟩
      unfold getMetafield at hg ⊢
      rw [hr] at hg
      try dsimp only
      rw [hr]
      simp only [Bool.false_eq_true, if_false] at hg ⊢
      rw [find?_append_of_none _ (Option.map_eq_none'.mp hg)]
      simp [List.find?]

theorem setMetafieldE_total {w : SWorld} (pid : Nat) (key : String) (value : MfVal)
    (hw : ∀ op, w.writeFails op = false) :
    ∃ w' tr, setMetafieldE w pid key value = .ok (w', tr) ∧
      w'.readFails = w.readFails ∧ w'.writeFails = w.writeFails := by
  unfold setMetafieldE
  split <;>
    (dsimp only
     rw [hw]
     simp only [Bool.false_eq_true, if_false]
     exact ⟨_, _, rfl, rfl, rfl⟩)

theorem writeMetafields_oracles {pid : Nat} :
    ∀ {kvs : List (String × MfVal)} {w w' : SWorld} {tr : List RemoteWrite},
      writeMetafields pid w kvs = .ok (w', tr) →
      w'.readFails = w.readFails ∧ w'.writeFails = w.writeFails := by
  intro kvs
  induction kvs with
  | nil =>
    intro w w' tr h
    simp only [writeMetafields] at h
    obtain ⟨h1, _⟩ := by simpa using h
    subst h1
    exact ⟨rfl, rfl⟩
  | cons kv rest ih =>
    intro w w' tr h
    simp only [writeMetafields, bind, Except.bind] at h
    split at h
    · cases h
    next x hx =>
      obtain ⟨w1, t1⟩ := x
      split at h
      · cases h
      next y hy =>
        obtain ⟨w2, t2⟩ := y
        obtain ⟨h1, _⟩ := by simpa using h
        subst h1
        obtain ⟨hr1, hw1⟩ := setMetafieldE_oracles hx
        obtain ⟨hr2, hw2⟩ := ih hy
        exact ⟨hr2.trans hr1, hw2.trans hw1⟩

theorem writeMetafields_last {pid : Nat} {k : String} {v : MfVal} :
    ∀ {kvs0 : List (String × MfVal)} {w w' : SWorld} {tr : List RemoteWrite},
      writeMetafields pid w (kvs0 ++ [(k, v)]) = .ok (w', tr) →
      w.readFails pid k = false →
      ∃ mid, getMetafield w' pid k = some ⟨mid, v⟩ := by
  intro kvs0
  induction kvs0 with
  | nil =>
    intro w w' tr h hr
    simp only [List.nil_append, writeMetafields, bind, Except.bind] at h
    split at h
    · cases h
    next x hx =>
      obtain ⟨w1, t1⟩ := x
      simp only [writeMetafields] at h
      obtain ⟨h1, _⟩ := by simpa using h
      subst h1
      exact setMetafieldE_get_same hr hx
  | cons kv rest ih =>
    intro w w' tr h hr
    simp only [List.cons_append, writeMetafields, bind, Except.bind] at h
    split at h
    · cases h
    next x hx =>
      obtain ⟨w1, t1⟩ := x
      split at h
      · cases h
      next y hy =>
        obtain ⟨w2, t2⟩ := y
        obtain ⟨h1, _⟩ := by simpa using h
        subst h1
        have hr1 : w1.readFails pid k = false := by
          rw [(setMetafieldE_oracles hx).1, hr]
        exact ih hy hr1

theorem writeMetafields_total (pid : Nat) :
    ∀ (kvs : List (String × MfVal)) (w : SWorld),
      (∀ op, w.writeFails op = false) →
      ∃ w' tr, writeMetafields pid w kvs = .ok (w', tr) ∧
        w'.readFails = w.readFails ∧ w'.writeFails = w.writeFails := by
  intro kvs
  induction kvs with
  | nil =>
    intro w hw
    exact ⟨w, [], rfl, rfl, rfl⟩
  | cons kv rest ih =>
    intro w hw
    obtain ⟨w1, t1, h1, hr1, hw1⟩ := setMetafieldE_total pid kv.1 kv.2 hw
    obtain ⟨w2, t2, h2, hr2, hw2⟩ := ih w1 (fun op => by rw [hw1]; exact hw op)
    refine ⟨w2, t1 ++ t2, ?_, hr2.trans hr1, hw2.trans hw1⟩
    simp only [writeMetafields, bind, Except.bind]
    rw [h1]
    dsimp only
    rw [h2]

theorem idOf?_eq_some {p : Product} {pid : Nat} (h : idOf? p = some pid) :
    p.id = some pid := by
  unfold idOf? at h
  split at h
  next q hq =>
    split at h
    · cases h
    · cases h
      exact hq
  next hq => cases h

theorem processProduct_skips {lang : String} {cat : Product → Classification}
    {w : SWorld} {p : Product} {source : String} {opts : POptions} {pid : Nat}
    {mf : Metafield}
    (hid : idOf? p = some pid) (hforce : opts.force = false)
    (hmf : getMetafield w pid stampKey = some mf)
    (hval : mf.value = MfVal.str p.updated_at) :
    processProduct lang cat w p source opts =
      .ok (w, [], some (.skipped "already_processed")) := by
  have hpid : p.id = some pid := idOf?_eq_some hid
  have hap : alreadyProcessed w p = true := by
    unfold alreadyProcessed
    rw [hpid]
    simp only [Option.getD_some]
    rw [hmf]
    simp [hval]
  unfold processProduct
  rw [hid, hforce, hap]
  simp

theorem updateProductE_ok {w : SWorld} {pid : Nat} {payload : Payload}
    {x : SWorld × List RemoteWrite}
    (h : updateProductE w pid payload = .ok x) :
    x = (w, [RemoteWrite.updateProduct pid payload]) := by
  unfold updateProductE at h
  dsimp only at h
  split at h
  · cases h
  · cases h
    rfl

theorem alreadyProcessed_elim {w : SWorld} {p : Product} {pid : Nat}
    (hpid : p.id = some pid) (hap : alreadyProcessed w p = true) :
    ∃ mf, getMetafield w pid stampKey = some mf ∧ mf.value = MfVal.str p.updated_at := by
  unfold alreadyProcessed at hap
  rw [hpid] at hap
  simp only [Option.getD_some] at hap
  split at hap
  next mf hg => exact ⟨mf, hg, of_decide_eq_true hap⟩
  next hg => cases hap

/-- C1: when the stored completion stamp exists and equals the product's
current `updated_at`, a `processProduct` call without `force` performs no
remote write and returns the skipped result; and for any starting world
whose stamp read succeeds, after one successful `processProduct` call a
second call with the same product skips with no remote writes, so the
writes happen at most once per revision stamp. -/
theorem C1_idempotent_skip (lang : String) (cat : Product → Classification)
    (w : SWorld) (p : Product) (source : String) (opts : POptions) (pid : Nat)
    (mf : Metafield)
    (hid : idOf? p = some pid)
    (hforce : opts.force = false)
    (hdry : opts.dryRun = false)
    (hmf : getMetafield w pid stampKey = some mf)
    (hval : mf.value = MfVal.str p.updated_at) :
    processProduct lang cat w p source opts =
      .ok (w, [], some (.skipped "already_processed")) ∧
    ∀ w0 w1 tr1 res1, w0.readFails pid stampKey = false →
      processProduct lang cat w0 p source opts = .ok (w1, tr1, res1) →
      processProduct lang cat w1 p source opts =
        .ok (w1, [], some (.skipped "already_processed")) := by
  refine ⟨processProduct_skips hid hforce hmf hval, ?_⟩
  intro w0 w1 tr1 res1 hr0 h1
  have hpid : p.id = some pid := idOf?_eq_some hid
  unfold processProduct at h1
  rw [hid] at h1
  by_cases hap0 : alreadyProcessed w0 p = true
  · rw [hforce, hap0] at h1
    simp only [Bool.not_false, Bool.and_true, if_true, Except.ok.injEq,
      Prod.mk.injEq] at h1
    obtain ⟨hw, -⟩ := h1
    subst hw
    obtain ⟨mf0, hg0, hv0⟩ := alreadyProcessed_elim hpid hap0
    exact processProduct_skips hid hforce hg0 hv0
  · have hap0f : alreadyProcessed w0 p = false := by
      simpa using hap0
    rw [hforce, hap0f] at h1
    simp only [Bool.not_false, Bool.and_false, Bool.false_eq_true, if_false] at h1
    rw [hdry] at h1
    simp only [Bool.false_eq_true, if_false] at h1
    try dsimp only at h1
    simp only [bind, Except.bind] at h1
    split at h1
    · cases h1
    next v hv =>
      rw [updateProductE_ok hv] at h1
      dsimp only at h1
      split at h1
      · cases h1
      next v2 hv2 =>
        obtain ⟨w2, t2⟩ := v2
        simp only [Except.ok.injEq, Prod.mk.injEq] at h1
        obtain ⟨hw1, -⟩ := h1
        subst hw1
        obtain ⟨mid, hget⟩ := writeMetafields_last hv2 hr0
        exact processProduct_skips hid hforce hget rfl

/-- Concrete classification for the C1 witness. -/
def cls1 : Classification :=
  ⟨"Beauty > Skincare > Face Serums", ["serum"], "Acme Serum", "Shop serum.",
    some (92 / 100 : ℚ), "rules"⟩

/-- Concrete product for the C1 witness. -/
def p1 : Product :=
  ⟨some 5, "Vitamin C Serum", "Acme", "", "Gift, Serum", "",
    "2026-01-01T00:00:00Z", "", "", [], []⟩

/-- Concrete world for the C1 witness: the stamp metafield matches. -/
def w1c : SWorld :=
  ⟨[(5, stampKey, ⟨11, MfVal.str "2026-01-01T00:00:00Z"⟩)],
    fun _ _ => false, fun _ => false, 12⟩

/-- Default options for the C1 witness. -/
def opts1 : POptions := ⟨false, none, false, false, false, none⟩

/-- Witness for C1 at a concrete matching stamp. -/
theorem C1_witness :
    processProduct "en" (fun _ => cls1) w1c p1 "webhook" opts1 =
      .ok (w1c, [], some (.skipped "already_processed")) :=
  (C1_idempotent_skip "en" (fun _ => cls1) w1c p1 "webhook" opts1 5
    ⟨11, MfVal.str "2026-01-01T00:00:00Z"⟩ rfl rfl rfl rfl rfl).1

/-- C3: without `replaceSeo`, the payload written by `processProduct` keeps
an existing SEO title unless it is empty or shorter than 40 characters, in
which case the classification's (truncated) title replaces it, and likewise
for the description with an 80-character threshold. -/
theorem C3_seo_overwrite (lang : String) (cat : Product → Classification)
    (w : SWorld) (p : Product) (source : String) (opts : POptions) (pid : Nat)
    (cls : Classification)
    (hid : idOf? p = some pid)
    (hrep : opts.replaceSeo = false)
    (hforce : opts.force = true)
    (hdry : opts.dryRun = true)
    (hcls : opts.classification = some cls) :
    ∃ payload tags,
      processProduct lang cat w p source opts =
        .ok (w, [], some (.dryRunOut cls payload tags)) ∧
      payload.metafields_global_title_tag =
        (if p.metafields_global_title_tag = "" ∨
            p.metafields_global_title_tag.length < 40
          then jsSlice cls.seo_title 70 else p.metafields_global_title_tag) ∧
      payload.metafields_global_description_tag =
        (if p.metafields_global_description_tag = "" ∨
            p.metafields_global_description_tag.length < 80
          then jsSlice cls.seo_description 320
          else p.metafields_global_description_tag) := by
  unfold processProduct
  rw [hid, hforce, hdry, hcls, hrep]
  simp only [Bool.not_true, Bool.false_and, Bool.false_eq_true, if_false, if_true]
  refine ⟨_, _, rfl, ?_, ?_⟩
  · by_cases h1 : p.metafields_global_title_tag = ""
    · simp [h1]
    · by_cases h2 : p.metafields_global_title_tag.length < 40
      · simp [h1, h2]
      · simp [h1, h2]
  · by_cases h1 : p.metafields_global_description_tag = ""
    · simp [h1]
    · by_cases h2 : p.metafields_global_description_tag.length < 80
      · simp [h1, h2]
      · simp [h1, h2]

/-- Concrete classification for the C3 witness. -/
def cls3 : Classification :=
  ⟨"Beauty", ["x"], "New Seo Title Long Enough", "New seo description text.",
    some (9 / 10 : ℚ), "rules"⟩

/-- Product whose existing SEO title has length 50 (and description 100). -/
def p50 : Product :=
  ⟨some 7, "T", "V", "", "", "", "U1",
    ⟨List.replicate 50 'X'⟩, ⟨List.replicate 100 'Y'⟩, [], []⟩

/-- Product whose existing SEO title has length 10 (and description 10). -/
def p10 : Product :=
  ⟨some 8, "T", "V", "", "", "", "U2",
    ⟨List.replicate 10 'X'⟩, ⟨List.replicate 10 'Y'⟩, [], []⟩

/-- Options for the C3 witness: dry run, forced, manual classification. -/
def opts3 : POptions := ⟨true, some cls3, false, false, true, none⟩

/-- Empty world for the C3 witness. -/
def w3 : SWorld := ⟨[], fun _ _ => false, fun _ => false, 1⟩

/-- Witness for C3: the length-50 title and length-100 description are
preserved, while the length-10 ones are overwritten. -/
theorem C3_witness :
    (∃ payload tags,
      processProduct "en" (fun _ => cls3) w3 p50 "manual" opts3 =
        .ok (w3, [], some (.dryRunOut cls3 payload tags)) ∧
      payload.metafields_global_title_tag = p50.metafields_global_title_tag ∧
      payload.metafields_global_description_tag =
        p50.metafields_global_description_tag) ∧
    (∃ payload tags,
      processProduct "en" (fun _ => cls3) w3 p10 "manual" opts3 =
        .ok (w3, [], some (.dryRunOut cls3 payload tags)) ∧
      payload.metafields_global_title_tag = jsSlice cls3.seo_title 70 ∧
      payload.metafields_global_description_tag =
        jsSlice cls3.seo_description 320) := by
  constructor
  · obtain ⟨pl, tg, h, ht, hd⟩ :=
      C3_seo_overwrite "en" (fun _ => cls3) w3 p50 "manual" opts3 7 cls3
        rfl rfl rfl rfl rfl
    refine ⟨pl, tg, h, ?_, ?_⟩
    · rw [ht, if_neg (by decide)]
    · rw [hd, if_neg (by decide)]
  · obtain ⟨pl, tg, h, ht, hd⟩ :=
      C3_seo_overwrite "en" (fun _ => cls3) w3 p10 "manual" opts3 8 cls3
        rfl rfl rfl rfl rfl
    refine ⟨pl, tg, h, ?_, ?_⟩
    · rw [ht, if_pos (by decide)]
    · rw [hd, if_pos (by decide)]

/-- C9 (amended): a `processProduct` call on a product without the required
identifier performs no remote call and returns immediately with no result
value (JavaScript `undefined`); no validation error is thrown. -/
theorem C9_missing_id (lang : String) (cat : Product → Classification)
    (w : SWorld) (p : Product) (source : String) (opts : POptions)
    (hid : idOf? p = none) :
    processProduct lang cat w p source opts = .ok (w, [], none) := by
  unfold processProduct
  rw [hid]

/-- Classification constant for the C9 input. -/
def cls9 : Classification := ⟨"Miscellaneous", [], "", "", some 1, "rules"⟩

/-- Product without an id, for C9. -/
def p9 : Product := ⟨none, "No Id", "V", "", "", "", "U", "", "", [], []⟩

/-- Empty world for C9. -/
def w9 : SWorld := ⟨[], fun _ _ => false, fun _ => false, 1⟩

/-- Default options for C9. -/
def opts9 : POptions := ⟨false, none, false, false, false, none⟩

/-- C9 (counterexample): on a product lacking its identifier the call
returns successfully with no result value and an empty write trace — no
validation error is surfaced to the caller, contradicting the claim that
one is. -/
theorem C9_counterexample :
    processProduct "en" (fun _ => cls9) w9 p9 "webhook" opts9 =
      .ok (w9, [], none) := rfl

/-- Witness for the amended C9 at a concrete id-less product. -/
theorem C9_witness :
    processProduct "fr" (fun _ => cls9) w9 p9 "cli" opts9 =
      .ok (w9, [], none) :=
  C9_missing_id "fr" (fun _ => cls9) w9 p9 "cli" opts9 rfl

/-- C10: a transport failure of the stamp metafield read makes
`getMetafield` return `null`, so `alreadyProcessed` is false and
`processProduct` (without `force`, writes succeeding) performs the full
classify-merge-write sequence: the result is `processed`, never `skipped`
and never an error, and the product update is issued. -/
theorem C10_stamp_read_failure (lang : String) (cat : Product → Classification)
    (w : SWorld) (p : Product) (source : String) (opts : POptions) (pid : Nat)
    (hid : idOf? p = some pid)
    (hfail : w.readFails pid stampKey = true)
    (hwrites : ∀ op, w.writeFails op = false)
    (hforce : opts.force = false)
    (hdry : opts.dryRun = false) :
    getMetafield w pid stampKey = none ∧
    alreadyProcessed w p = false ∧
    ∃ w2 tr cls payload tags,
      processProduct lang cat w p source opts =
        .ok (w2, tr, some (.processed cls payload tags)) ∧
      ∃ rest, tr = RemoteWrite.updateProduct pid payload :: rest := by
  have hpid : p.id = some pid := idOf?_eq_some hid
  have hget : getMetafield w pid stampKey = none := by
    unfold getMetafield
    rw [hfail]
    simp
  have hap : alreadyProcessed w p = false := by
    unfold alreadyProcessed
    rw [hpid]
    simp only [Option.getD_some]
    rw [hget]
  refine ⟨hget, hap, ?_⟩
  unfold processProduct
  rw [hid, hforce, hap, hdry]
  simp only [Bool.not_false, Bool.and_false, Bool.false_eq_true, if_false]
  simp only [bind, Except.bind]
  unfold updateProductE
  dsimp only
  rw [hwrites]
  simp only [Bool.false_eq_true, if_false]
  obtain ⟨w2, t2, heq, -, -⟩ :=
    writeMetafields_total pid _ w hwrites
  rw [heq]
  exact ⟨w2, _, _, _, _, rfl, t2, rfl⟩

/-- Product for the C10 witness. -/
def p10r : Product := ⟨some 5, "Serum", "Acme", "", "", "", "U3", "", "", [], []⟩

/-- World for the C10 witness: only the stamp read fails. -/
def w10 : SWorld :=
  ⟨[], fun pid key => pid == 5 && key == stampKey, fun _ => false, 1⟩

/-- Options for the C10 witness. -/
def opts10 : POptions := ⟨false, none, false, false, false, none⟩

/-- Classification for the C10 witness. -/
def cls10 : Classification :=
  ⟨"Beauty > Skincare > Face Serums", ["serum"], "Acme Serum", "Shop serum.",
    some (92 / 100 : ℚ), "rules"⟩

/-- Witness for C10 at a concrete failing stamp read. -/
theorem C10_witness :
    getMetafield w10 5 stampKey = none ∧
    alreadyProcessed w10 p10r = false ∧
    ∃ w2 tr cls payload tags,
      processProduct "en" (fun _ => cls10) w10 p10r "webhook" opts10 =
        .ok (w2, tr, some (.processed cls payload tags)) ∧
      ∃ rest, tr = RemoteWrite.updateProduct 5 payload :: rest :=
  C10_stamp_read_failure "en" (fun _ => cls10) w10 p10r "webhook" opts10 5
    rfl rfl (fun _ => rfl) rfl rfl

/-!
The throttled client's retry wrapper, from src/src/shopify.js `shopifyCall`
(identical to `schedule` in src/lib/mapping.js):

```js
async function shopifyCall(fn, ...args) {
  return limiter.schedule(async () => {
    try { return await fn(...args); }
    catch (err) {
      const r = err.response;
      if (r && (r.status === 429 || r.status >= 500)) {
        const retry = Number(r.headers?.['retry-after'] || 2);
        await new Promise((res) => setTimeout(res, retry * 1000));
        return await fn(...args);
      }
      throw err;
    }
  });
}
```

The operation is modelled as a function from the attempt index to its
outcome; the result records the outcome delivered to the caller, the
number of attempts made, and the milliseconds slept.
-/

/-- HTTP-style response attached to a thrown request error: its status and
the numeric `retry-after` header (absent or empty header is `none`). -/
structure HResp where
  status : Nat
  retryAfter : Option ℚ
  deriving DecidableEq, Repr

/-- A thrown request error: a transport error has no response. -/
structure HErr where
  response : Option HResp
  deriving DecidableEq, Repr

/-- The retry wrapper `shopifyCall` over an attempt-indexed operation. -/
def shopifyCall {α : Type} (op : Nat → Except HErr α) :
    Except HErr α × Nat × ℚ :=
  match op 0 with
  | .ok v => (.ok v, 1, 0)
  | .error e =>
    match e.response with
    | some r =>
      if r.status = 429 ∨ r.status ≥ 500 then
        (op 1, 2, (r.retryAfter.getD 2) * 1000)
      else (.error e, 1, 0)
    | none => (.error e, 1, 0)

/-- C4: a failure with response status 429 or ≥ 500 is re-attempted exactly
once after sleeping the retry-after duration (2 s when the header is
absent), a second failure propagating to the caller; any other failure (a
4xx other than 429, or no response at all) propagates immediately with no
retry, and a first-attempt success makes one attempt and no sleep. -/
theorem C4_throttled_retry {α : Type} (op : Nat → Except HErr α) :
    (∀ v, op 0 = .ok v → shopifyCall op = (.ok v, 1, 0)) ∧
    (∀ e r, op 0 = .error e → e.response = some r →
      r.status = 429 ∨ r.status ≥ 500 →
      shopifyCall op = (op 1, 2, (r.retryAfter.getD 2) * 1000)) ∧
    (∀ e r e2, op 0 = .error e → e.response = some r →
      r.status = 429 ∨ r.status ≥ 500 → op 1 = .error e2 →
      (shopifyCall op).1 = .error e2) ∧
    (∀ e r, op 0 = .error e → e.response = some r →
      r.status ≠ 429 → r.status < 500 →
      shopifyCall op = (.error e, 1, 0)) ∧
    (∀ e, op 0 = .error e → e.response = none →
      shopifyCall op = (.error e, 1, 0)) := by
  refine ⟨?_, ?_, ?_, ?_, ?_⟩
  · intro v h
    unfold shopifyCall
    rw [h]
  · intro e r h hr hs
    unfold shopifyCall
    rw [h]
    dsimp only
    rw [hr]
    simp only [if_pos hs]
  · intro e r e2 h hr hs h2
    unfold shopifyCall
    rw [h]
    dsimp only
    rw [hr]
    simp only [if_pos hs]
    rw [h2]
  · intro e r h hr h429 h500
    unfold shopifyCall
    rw [h]
    dsimp only
    rw [hr]
    dsimp only
    rw [if_neg (not_or.mpr ⟨h429, not_le.mpr h500⟩)]
  · intro e h hr
    unfold shopifyCall
    rw [h]
    dsimp only
    rw [hr]

/-!
The resource pager, src/src/shopify.js `getAllProducts` (identical in
src/lib/mapping.js).  The remote listing is modelled as the finite script
of responses the server returns to the successive page requests: each page
carries its products and its `link` response header.  The `while (true)`
loop pushes the page's products and then follows the `rel="next"` link;
the loop ends at the first page whose header is absent, malformed or
without a `rel="next"` entry.
-/

/-- One response of the paginated listing: the products array and the
`link` header (`none` when the header is absent). -/
structure Page (α : Type) where
  products : List α
  linkHeader : Option String

/-- Match `([^>]+)>;\s*rel="next"` immediately after a `<`, returning the
captured URL: the regex's greedy `[^>]+` must reach a `>`, then `;`, then
optional whitespace, then the literal `rel="next"`. -/
def matchNextAfterLt (cs : List Char) : Option String :=
  let run := cs.takeWhile (fun c => c ≠ '>')
  if run.isEmpty then none
  else
    match cs.drop run.length with
    | '>' :: rest1 =>
      match rest1 with
      | ';' :: rest2 =>
        if ("rel=\"next\"".data).isPrefixOf (rest2.dropWhile isWsChar) then
          some ⟨run⟩
        else none
      | _ => none
    | _ => none

/-- Leftmost-match scan for `/<([^>]+)>;\s*rel="next"/`. -/
def findNextLink : List Char → Option String
  | [] => none
  | c :: rest =>
    if c = '<' then
      match matchNextAfterLt rest with
      | some u => some u
      | none => findNextLink rest
    else findNextLink rest

/-- JavaScript `link.match(/<([^>]+)>;\s*rel="next"/)` reduced to the
captured next-page URL (`none` when the header does not match). -/
def parseNextLink (link : String) : Option String :=
  findNextLink link.data

/-- The pager's loop over the response script: accumulate each page's
products; stop as soon as a page's link header has no next link. -/
def getAllProducts {α : Type} : List (Page α) → List α
  | [] => []
  | pg :: rest =>
    pg.products ++
      (match parseNextLink (pg.linkHeader.getD "") with
       | none => []
       | some _ => getAllProducts rest)

/-- The pages the loop visits, written from the claim: every page up to and
including the first one whose link header is missing, malformed or lacks a
`rel="next"` entry. -/
def visitedPages {α : Type} : List (Page α) → List (Page α)
  | [] => []
  | pg :: rest =>
    pg :: (match parseNextLink (pg.linkHeader.getD "") with
           | none => []
           | some _ => visitedPages rest)

/-- C6: the pager returns exactly the concatenation, in page order, of the
products of the pages visited, stopping at the first page whose link header
is missing, malformed (here: no `;` after the URL, or a `rel="prev"` entry)
or lacks a `rel="next"` entry; such headers are treated as "no next page",
never as an error. -/
theorem C6_pager (pages : List (Page Nat)) :
    getAllProducts pages = ((visitedPages pages).map Page.products).join ∧
    parseNextLink "" = none ∧
    parseNextLink "<https://x/p2> rel=\"next\"" = none ∧
    parseNextLink "<https://x/p2>; rel=\"prev\"" = none ∧
    parseNextLink "<https://x/p2>; rel=\"next\"" = some "https://x/p2" := by
  refine ⟨?_, by decide, by decide, by decide, by decide⟩
  induction pages with
  | nil => simp [getAllProducts, visitedPages]
  | cons pg rest ih =>
    simp only [getAllProducts, visitedPages, List.map, List.join]
    cases parseNextLink (pg.linkHeader.getD "") <;> simp [ih]

/-!
The command batch loop of `handleCommandRequest` (src/lib/mapping.js).  The
dispatch `executeCommand` — whose every branch calls the Shopify service,
the processor, the categorizer, the rule file or the job table — is
abstracted as an oracle returning the command's result or thrown error
together with the list of side effects it performs; the dry-run branch of
the loop never consults the oracle.
-/

/-- A structured command: an action name plus opaque parameters. -/
structure Command (π : Type) where
  action : String
  params : π

/-- One entry of the per-command results array: the dry-run skip entry, a
successful result, or a caught error. -/
inductive REntry (ρ : Type) where
  | skippedE (action : String)
  | okE (action : String) (result : ρ)
  | errE (action : String) (message : String)

/-- The per-command loop of `handleCommandRequest`: with `dryRun`, any
action other than `preview`/`list_rules` yields a skipped entry without
executing; otherwise the command executes, a thrown error being caught and
reported without aborting the batch. -/
def handleCommands {π ρ ε : Type} (exec : Command π → Except String ρ × List ε)
    (dryRun : Bool) : List (Command π) → List (REntry ρ) × List ε
  | [] => ([], [])
  | c :: rest =>
    let step : REntry ρ × List ε :=
      if dryRun && !(c.action == "preview") && !(c.action == "list_rules") then
        (.skippedE c.action, [])
      else
        match exec c with
        | (.ok r, es) => (.okE c.action r, es)
        | (.error msg, es) => (.errE c.action msg, es)
    let next := handleCommands exec dryRun rest
    (step.1 :: next.1, step.2 ++ next.2)

/-- C8: with `dryRun` set, every command whose action is not `preview` or
`list_rules` yields a skipped entry and contributes no effect (no
classifier or remote call), while `preview`/`list_rules` commands execute
normally: the effect trace is exactly that of the preview/list commands. -/
theorem C8_dry_run {π ρ ε : Type} (exec : Command π → Except String ρ × List ε)
    (commands : List (Command π)) :
    (handleCommands exec true commands).1 =
      commands.map (fun c =>
        if c.action ≠ "preview" ∧ c.action ≠ "list_rules" then
          REntry.skippedE c.action
        else
          match exec c with
          | (.ok r, _) => REntry.okE c.action r
          | (.error msg, _) => REntry.errE c.action msg) ∧
    (handleCommands exec true commands).2 =
      ((commands.filter (fun c =>
          c.action == "preview" || c.action == "list_rules")).map
        (fun c => (exec c).2)).join := by
  induction commands with
  | nil => exact ⟨rfl, rfl⟩
  | cons c rest ih =>
    obtain ⟨ih1, ih2⟩ := ih
    rcases hE : exec c with ⟨res, es⟩
    constructor
    · simp only [handleCommands, List.map, hE, ih1]
      by_cases hp : c.action = "preview"
      · cases res <;> simp [hp, hE]
      · by_cases hl : c.action = "list_rules"
        · cases res <;> simp [hp, hl, hE]
        · have hbp : (c.action == "preview") = false := beq_eq_false_iff_ne.mpr hp
          have hbl : (c.action == "list_rules") = false := beq_eq_false_iff_ne.mpr hl
          cases res <;> simp [hp, hl, hE, hbp, hbl]
    · simp only [handleCommands, List.filter, hE, ih2]
      by_cases hp : c.action = "preview"
      · cases res <;> simp [hp, hE]
      · by_cases hl : c.action = "list_rules"
        · cases res <;> simp [hp, hl, hE]
        · have hbp : (c.action == "preview") = false := beq_eq_false_iff_ne.mpr hp
          have hbl : (c.action == "list_rules") = false := beq_eq_false_iff_ne.mpr hl
          cases res <;> simp [hp, hl, hE, hbp, hbl]

/-!
The rule classifier and the generative fallback, src/lib/categorizer.js.
The rule file mapping.json is configuration data, modelled as a `Mapping`
value; the JavaScript `RegExp` library is abstracted: a keyword rule's
compiled pattern (an alternation of escaped keywords with the `i` flag) is
modelled concretely as case-insensitive substring search, an explicit
`regex` rule's pattern through the oracle `regexTest`, and a rule with
neither keywords nor regex compiles to `/.*/i`, which always matches.
-/

/-- One entry of mapping.json's `rules`. -/
structure MappingRule where
  name : Option String
  keywords : List String
  regex : Option String
  category : String
  tags : List String
  confidence : Option ℚ

/-- The parsed mapping.json. -/
structure Mapping where
  fallback_category : Option String
  rules : List MappingRule

/-- A rule after `buildRules`: compiled pattern, category, tags, confidence. -/
structure CompiledRule where
  name : String
  pattern : String → Bool
  category : String
  tags : List String
  confidence : ℚ

/-- Worker for substring search: does `n` occur in the haystack? -/
def substrAux (n : List Char) : List Char → Bool
  | [] => n.isEmpty
  | c :: rest => n.isPrefixOf (c :: rest) || substrAux n rest

/-- Case-sensitive substring test over modelled strings. -/
def containsSub (hay needle : String) : Bool :=
  substrAux needle.data hay.data

/-- The compiled pattern of a keyword list: some keyword occurs
case-insensitively in the haystack (the escaped alternation under `i`). -/
def keywordMatch (keywords : List String) (hay : String) : Bool :=
  keywords.any (fun k => containsSub (jsToLower hay) (jsToLower k))

/-- `buildRules()`: compile each mapping rule (keyword alternation, explicit
regex through `regexTest`, or catch-all `/.*/i`), defaulting name, the 0.92
confidence and the fallback category label. -/
def buildRules (regexTest : String → String → Bool) (m : Mapping) :
    List CompiledRule × String :=
  let fallback := match m.fallback_category with
    | some f => if f = "" then "Miscellaneous" else f
    | none => "Miscellaneous"
  let rules := m.rules.map (fun rule =>
    let keywords := rule.keywords.filter (fun k => k ≠ "")
    let pattern : String → Bool :=
      match rule.regex with
      | some re =>
        if re = "" then
          if keywords.isEmpty then fun _ => true else keywordMatch keywords
        else regexTest re
      | none =>
        if keywords.isEmpty then fun _ => true else keywordMatch keywords
    { name := match rule.name with
        | some n => if n = "" then rule.category else n
        | none => rule.category
      pattern := pattern
      category := rule.category
      tags := rule.tags
      confidence := match rule.confidence with
        | some c => if c = 0 then 92 / 100 else c
        | none => 92 / 100 })
  (rules, fallback)

/-- Fuel-indexed worker replacing each HTML tag `<[^>]+>` by a space
(`fuel` is the length of the original list, enough for every step). -/
def stripTagsAux : Nat → List Char → List Char
  | _, [] => []
  | 0, l => l
  | fuel + 1, c :: rest =>
    if c = '<' then
      let run := rest.takeWhile (fun x => x ≠ '>')
      match rest.drop run.length with
      | '>' :: rest2 =>
        if run.isEmpty then c :: stripTagsAux fuel rest
        else ' ' :: stripTagsAux fuel rest2
      | _ => c :: stripTagsAux fuel rest
    else c :: stripTagsAux fuel rest

/-- Worker collapsing each whitespace run to one space (`\s+` → `' '`);
the flag records whether the previous character was whitespace. -/
def collapseWsAux : Bool → List Char → List Char
  | _, [] => []
  | prevWs, c :: rest =>
    if isWsChar c then
      (if prevWs then [] else [' ']) ++ collapseWsAux true rest
    else c :: collapseWsAux false rest

/-- `normalizeText(str)`: strip HTML tags, collapse whitespace, trim. -/
def normalizeText (s : String) : String :=
  jsTrim ⟨collapseWsAux false (stripTagsAux s.data.length s.data)⟩

/-- Characters kept by `tokenize`'s splitter `/[^a-z0-9&]+/` (after
lower-casing). -/
def isTokenChar (c : Char) : Bool :=
  ('a' ≤ c && c ≤ 'z') || ('0' ≤ c && c ≤ '9') || c == '&'

/-- Worker producing the maximal runs of token characters. -/
def splitRunsAux : List Char → List Char → List String
  | acc, [] => if acc.isEmpty then [] else [⟨acc.reverse⟩]
  | acc, c :: rest =>
    if isTokenChar c then splitRunsAux (c :: acc) rest
    else if acc.isEmpty then splitRunsAux [] rest
    else ⟨acc.reverse⟩ :: splitRunsAux [] rest

/-- The categorizer's stop-word set. -/
def STOPWORDS : List String :=
  ["the", "and", "with", "for", "gift", "size", "set", "kit", "new"]

/-- `tokenize(str)`: lower-case, split on non-token characters, drop empty
tokens and stop words. -/
def tokenize (s : String) : List String :=
  (splitRunsAux [] (jsToLower s).data).filter
    (fun t => t ≠ "" ∧ ¬ STOPWORDS.contains t)

/-- `category.split('>').pop().trim()`: the trimmed last path segment. -/
def lastSeg (category : String) : String :=
  jsTrim ((jsSplit category '>').getLastD "")

/-- Output of `buildSeo`. -/
structure SeoParts where
  brand : String
  core : String
  seoTitle : String
  seoDescription : String

/-- `buildSeo(product, category)`: brand, core text, synthesized SEO title
(ellipsis past 62 characters) and description (ellipsis past 155). -/
def buildSeo (p : Product) (category : String) : SeoParts :=
  let brand := if jsTrim p.vendor = "" then "Brand" else jsTrim p.vendor
  let title := normalizeText p.title
  let core0 := jsSlice title 80
  let core := if core0 = "" then lastSeg category else core0
  let baseTitle := jsTrim (brand ++ " " ++ core)
  let seoTitle :=
    if baseTitle.length > 62 then jsTrim (jsSlice baseTitle 59) ++ "…" else baseTitle
  let leaf := lastSeg category
  let description := "Discover " ++ core ++ " from " ++ brand ++
    ". Shop authentic " ++ jsToLower leaf ++
    " with fast shipping and easy returns."
  let seoDescription :=
    if description.length > 155 then jsTrim (jsSlice description 152) ++ "…"
    else description
  ⟨brand, core, seoTitle, seoDescription⟩

/-- `composeTags(product, category, extraTags)`: brand, category leaf, the
rule's extra tags and up to 10 title tokens, de-duplicated
case-insensitively (same trim/dedup loop as the processor's merge) and
capped at 12. -/
def composeTags (p : Product) (category : String) (extraTags : List String) :
    List String :=
  let sp := buildSeo p category
  let tokens := (tokenize sp.core).take 10
  let leaf := lastSeg category
  let candidates := [sp.brand, leaf] ++ extraTags ++ tokens
  (dedupTrimCI candidates []).take 12

/-- The `tags` field of a raw classification result: a JS array, a comma
string, or anything else. -/
inductive TagsVal where
  | arr (l : List String)
  | strv (s : String)
  | other

/-- Raw classification result fed to `finalizeResult` (absent string
fields are `""`, absent confidence `none`). -/
structure RawResult where
  category_path : String
  tags : TagsVal
  seo_title : String
  seo_description : String
  confidence : Option ℚ
  method : String

/-- The tag list a `TagsVal` denotes (array kept, string split on commas,
anything else empty). -/
def tagsOf : TagsVal → List String
  | .arr l => l
  | .strv s => splitTags s
  | .other => []

/-- `finalizeResult(product, result)`: default the category label, compose
tags, backfill SEO fields from `buildSeo`, default confidence 0.8 and
method `'rules'`. -/
def finalizeResult (p : Product) (result : RawResult) : Classification :=
  let category :=
    if result.category_path = "" then "Miscellaneous" else result.category_path
  let extras := tagsOf result.tags
  let tags := composeTags p category extras
  let sp := buildSeo p category
  { category_path := category
    tags := tags
    seo_title := if result.seo_title = "" then sp.seoTitle else result.seo_title
    seo_description :=
      if result.seo_description = "" then sp.seoDescription
      else result.seo_description
    confidence := some (match result.confidence with
      | some c => c
      | none => 8 / 10)
    method := if result.method = "" then "rules" else result.method }

/-- `ruleBasedCategorize(product)`: evaluate the compiled rules in order on
the lower-cased normalized haystack; first match wins, otherwise the
catch-all fallback with confidence 0.4. -/
def ruleBasedCategorize (regexTest : String → String → Bool) (m : Mapping)
    (p : Product) : Classification :=
  let built := buildRules regexTest m
  let haystack := jsToLower (normalizeText p.title ++ " " ++
    normalizeText p.vendor ++ " " ++ normalizeText p.body_html)
  match built.1.find? (fun r => r.pattern haystack) with
  | some r =>
    finalizeResult p ⟨r.category, .arr r.tags, "", "", some r.confidence, "rules"⟩
  | none =>
    finalizeResult p ⟨built.2, .arr [], "", "", some (4 / 10), "fallback"⟩

/-- The string a possibly-absent JS string field denotes (`undefined` and
`""` are both falsy under `||`). -/
def jsStr (v : Option String) : String :=
  match v with
  | some s => s
  | none => ""

/-- The object `JSON.parse` may deliver for the model's reply: each field
possibly absent. -/
structure ParsedAi where
  category_path : Option String
  category : Option String
  ai_tags : TagsVal
  seo_title : Option String
  seo_description : Option String
  confidence : Option ℚ

/-- The substring `message.match(/\x7b[\s\S]*\x7d/)` captures: from the
first opening brace to the last closing brace, the whole text when there
is no such match. -/
def extractJson (s : String) : String :=
  let cs := s.data
  let pre := cs.takeWhile (fun c => c ≠ '\x7b')
  if pre.length = cs.length then s
  else
    let fromBrace := cs.drop pre.length
    let tail := fromBrace.reverse.dropWhile (fun c => c ≠ '\x7d')
    if tail.isEmpty then s else ⟨tail.reverse⟩

/-- The user prompt `askOpenAI` sends (src/lib/categorizer.js). -/
def buildPrompt (lang : String) (p : Product) (ruleGuess : Classification)
    (bodyText : String) : String :=
  "LANG: " ++ lang ++ "\nRule category guess: " ++ ruleGuess.category_path ++
  "\n\nProduct:\n- Title: " ++ p.title ++
  "\n- Brand: " ++ p.vendor ++
  "\n- Tags: " ++ p.tags ++
  "\n- Type: " ++ p.product_type ++
  "\n- Options: " ++ String.intercalate ", "
    (p.options.map (fun o => o.name ++ ":" ++
      String.intercalate "/" (o.values.take 5))) ++
  "\n- Variants: " ++ String.intercalate " ; "
    ((p.variants.take 3).map (fun v => v.title)) ++
  "\n- Body: " ++ bodyText ++
  "\n\nIf rule category looks correct, keep it. Otherwise, suggest better." ++
  "\nReturn JSON only with category_path, ai_tags (array or comma string)," ++
  " seo_title, seo_description."

/-- `askOpenAI(product, ruleGuess, ...)`: `none` without a client, on a
transport error, or on a JSON-parse failure; on success the raw result
with every missing field backfilled from the rule guess.  The chat client
is a function from the prompt to a transport outcome whose content may be
null; `jsonParse` abstracts `JSON.parse` (`none` = throws). -/
def askOpenAI (lang : String)
    (openai : Option (String → Except Unit (Option String)))
    (jsonParse : String → Option ParsedAi)
    (p : Product) (ruleGuess : Classification) : Option RawResult :=
  match openai with
  | none => none
  | some client =>
    let bodyText := jsSlice (normalizeText p.body_html) 2000
    let prompt := buildPrompt lang p ruleGuess bodyText
    match client prompt with
    | .error _ => none
    | .ok content =>
      let message := match content with
        | some c => c
        | none => "\x7b\x7d"
      let jsonText := extractJson message
      match jsonParse jsonText with
      | none => none
      | some parsed =>
        let category :=
          if jsStr parsed.category_path ≠ "" then jsStr parsed.category_path
          else if jsStr parsed.category ≠ "" then jsStr parsed.category
          else ruleGuess.category_path
        let tags := tagsOf parsed.ai_tags
        some {
          category_path := category
          tags := .arr (if tags.isEmpty then ruleGuess.tags else tags)
          seo_title :=
            if jsStr parsed.seo_title = "" then ruleGuess.seo_title
            else jsStr parsed.seo_title
          seo_description :=
            if jsStr parsed.seo_description = "" then ruleGuess.seo_description
            else jsStr parsed.seo_description
          confidence := some (match parsed.confidence with
            | some c => if c = 0 then 85 / 100 else c
            | none => 85 / 100)
          method := "openai" }

/-- JavaScript `x >= t` on a possibly-absent number (`undefined >= t` is
false). -/
def confGe (v : Option ℚ) (t : ℚ) : Bool :=
  match v with
  | some c => decide (t ≤ c)
  | none => false

/-- `createCategorizer(...).categorize(product)`: the rule guess, returned
directly without a client or at confidence ≥ 0.8; otherwise the fallback
model's answer finalized, or the rule guess again when the fallback
returns null. -/
def categorize (lang : String) (regexTest : String → String → Bool)
    (m : Mapping) (openai : Option (String → Except Unit (Option String)))
    (jsonParse : String → Option ParsedAi) (p : Product) : Classification :=
  let ruleGuess := ruleBasedCategorize regexTest m p
  match openai with
  | none => ruleGuess
  | some client =>
    if confGe ruleGuess.confidence (8 / 10) then ruleGuess
    else
      match askOpenAI lang (some client) jsonParse p ruleGuess with
      | none => ruleGuess
      | some ai => finalizeResult p ai

theorem finalizeResult_category_ne {p : Product} {result : RawResult} :
    (finalizeResult p result).category_path ≠ "" := by
  simp only [finalizeResult]
  split
  · decide
  · assumption

theorem finalizeResult_confidence {p : Product} {result : RawResult} {c : ℚ}
    (h : result.confidence = some c) :
    (finalizeResult p result).confidence = some c := by
  simp only [finalizeResult]
  rw [h]

/-- C7: for every product (the empty one included) and every mapping whose
configured rule confidences are nonnegative, the rule classifier returns a
classification — at worst the catch-all fallback — whose category label is
non-empty (defaulting to the configured fallback label) and whose
confidence is ≥ 0. -/
theorem C7_classifier_total (regexTest : String → String → Bool) (m : Mapping)
    (p : Product)
    (hconf : ∀ r ∈ m.rules, ∀ c, r.confidence = some c → 0 ≤ c) :
    (ruleBasedCategorize regexTest m p).category_path ≠ "" ∧
    ∃ c, (ruleBasedCategorize regexTest m p).confidence = some c ∧ 0 ≤ c := by
  constructor
  · unfold ruleBasedCategorize
    dsimp only
    split <;> exact finalizeResult_category_ne
  · unfold ruleBasedCategorize
    dsimp only
    split
    next r hfind =>
      have hmem := List.mem_of_find?_eq_some hfind
      simp only [buildRules] at hmem
      obtain ⟨orig, horig, hform⟩ := List.mem_map.mp hmem
      refine ⟨r.confidence, finalizeResult_confidence rfl, ?_⟩
      have hrc : r.confidence = match orig.confidence with
          | some c => if c = 0 then (92 / 100 : ℚ) else c
          | none => (92 / 100 : ℚ) := by
        rw [← hform]
      rw [hrc]
      cases horigc : orig.confidence with
      | none =>
        dsimp only
        norm_num
      | some c =>
        dsimp only
        by_cases hc0 : c = 0
        · rw [if_pos hc0]
          norm_num
        · rw [if_neg hc0]
          exact hconf orig horig c horigc
    next hfind =>
      exact ⟨4 / 10, finalizeResult_confidence rfl, by norm_num⟩

/-- Empty mapping for the C7 witness. -/
def m7 : Mapping := ⟨none, []⟩

/-- Product with empty title, vendor and description, for the C7 witness. -/
def p7 : Product := ⟨some 9, "", "", "", "", "", "U", "", "", [], []⟩

/-- Regex oracle for the C7 witness. -/
def rt7 : String → String → Bool := fun _ _ => false

/-- Witness for C7: the all-empty product with no configured rules falls to
the catch-all with a non-empty label and nonnegative confidence. -/
theorem C7_witness :
    (ruleBasedCategorize rt7 m7 p7).category_path ≠ "" ∧
    ∃ c, (ruleBasedCategorize rt7 m7 p7).confidence = some c ∧ 0 ≤ c :=
  C7_classifier_total rt7 m7 p7 (by simp [m7])

/-- C5: the generative fallback is consulted only when a client is
configured and the rule guess's confidence is below 0.8; it yields `null`
(never an exception) on any transport error or JSON-parse failure, in
which case `categorize` returns the rule guess unchanged; and on success
every field missing from the model's output is backfilled from the rule
guess. -/
theorem C5_fallback_containment (lang : String)
    (regexTest : String → String → Bool) (m : Mapping) (p : Product) :
    (∀ jsonParse,
      categorize lang regexTest m none jsonParse p =
        ruleBasedCategorize regexTest m p) ∧
    (∀ client jsonParse c,
      (ruleBasedCategorize regexTest m p).confidence = some c →
      (8 / 10 : ℚ) ≤ c →
      categorize lang regexTest m (some client) jsonParse p =
        ruleBasedCategorize regexTest m p) ∧
    (∀ client jsonParse ruleGuess, (∀ s, client s = .error ()) →
      askOpenAI lang (some client) jsonParse p ruleGuess = none) ∧
    (∀ client jsonParse ruleGuess, (∀ s, jsonParse s = none) →
      askOpenAI lang (some client) jsonParse p ruleGuess = none) ∧
    (∀ client jsonParse,
      askOpenAI lang (some client) jsonParse p
        (ruleBasedCategorize regexTest m p) = none →
      categorize lang regexTest m (some client) jsonParse p =
        ruleBasedCategorize regexTest m p) ∧
    (∀ client jsonParse ruleGuess raw,
      askOpenAI lang (some client) jsonParse p ruleGuess = some raw →
      ∃ s parsed, jsonParse s = some parsed ∧
        (jsStr parsed.category_path = "" → jsStr parsed.category = "" →
          raw.category_path = ruleGuess.category_path) ∧
        (tagsOf parsed.ai_tags = [] → raw.tags = TagsVal.arr ruleGuess.tags) ∧
        (jsStr parsed.seo_title = "" → raw.seo_title = ruleGuess.seo_title) ∧
        (jsStr parsed.seo_description = "" →
          raw.seo_description = ruleGuess.seo_description)) := by
  refine ⟨?_, ?_, ?_, ?_, ?_, ?_⟩
  · intro jsonParse
    rfl
  · intro client jsonParse c hc hge
    unfold categorize
    dsimp only
    have hge' : confGe (ruleBasedCategorize regexTest m p).confidence
        (8 / 10) = true := by
      unfold confGe
      rw [hc]
      simpa using hge
    rw [hge']
    simp
  · intro client jsonParse ruleGuess hcl
    unfold askOpenAI
    dsimp only
    rw [hcl]
  · intro client jsonParse ruleGuess hjp
    unfold askOpenAI
    dsimp only
    split
    · rfl
    · rw [hjp]
  · intro client jsonParse hnone
    unfold categorize
    dsimp only
    by_cases hge : confGe (ruleBasedCategorize regexTest m p).confidence
        (8 / 10) = true
    · rw [hge]
      simp
    · rw [Bool.not_eq_true] at hge
      rw [hge]
      simp only [Bool.false_eq_true, if_false]
      rw [hnone]
  · intro client jsonParse ruleGuess raw h
    unfold askOpenAI at h
    dsimp only at h
    split at h
    · cases h
    next content hcp =>
      split at h
      next hjp => cases h
      next parsed hjp =>
        cases h
        refine ⟨_, parsed, hjp, ?_, ?_, ?_, ?_⟩
        · intro h1 h2
          dsimp only
          rw [if_neg (by simpa using h1), if_neg (by simpa using h2)]
        · intro htags
          dsimp only
          rw [htags]
          rfl
        · intro h1
          dsimp only
          rw [if_pos h1]
        · intro h1
          dsimp only
          rw [if_pos h1]

end SAC
